import Mathlib

/-!
Shallow embedding of the wav-files-trim program (src/main.rs) together with
proofs about its silence-trimming algorithm, its WAV-format validation and
its batch driver.

Numeric modelling: the Rust code computes with `f64`; here those values are
idealised as real numbers (`ℝ`).  The `i16` samples are modelled as `ℤ`
(every theorem quantifies over all integers, hence in particular over the
i16 range).  Rust's `Result` is modelled as `Except String`, and a Rust
panic (which is not an `Err`) is modelled as the `none` case of an outer
`Option`.
-/

namespace WavTrim

/-- Model of `hound::SampleFormat`: integer or float sample encoding. -/
inductive SampleFormat where
  | int : SampleFormat
  | float : SampleFormat
deriving DecidableEq

/-- Model of `hound::WavSpec` as read from a WAV file header
(`channels`, `sample_rate`, `bits_per_sample`, `sample_format`). -/
structure WavSpec where
  channels : ℕ
  sample_rate : ℕ
  bits_per_sample : ℕ
  sample_format : SampleFormat
deriving DecidableEq

/-- Abstraction of an opened input WAV file: its header descriptor and the
outcome of decoding all its samples (`reader.samples::<i16>().collect()`). -/
structure WavFile where
  spec : WavSpec
  samples : Except String (List ℤ)

/-- Sum of squared samples, each sample first widened to `f64`
(idealised as `ℝ`): models `chunk.iter().map(|&s| (s as f64).powi(2)).sum()`
from `rms` in src/main.rs. -/
noncomputable def sumSq (chunk : List ℤ) : ℝ :=
  (chunk.map (fun s : ℤ => ((s : ℝ)) ^ 2)).sum

/-- Model of `fn rms(chunk: &[i16]) -> f64` from src/main.rs: `0.0` for the
empty chunk, otherwise `sqrt(sum_sq / chunk.len())`. -/
noncomputable def rms (chunk : List ℤ) : ℝ :=
  if chunk = [] then 0 else Real.sqrt (sumSq chunk / chunk.length)

/-- The linear RMS threshold computed by `trim_samples` in src/main.rs:
`threshold_linear = 10f64.powf(threshold_db / 20.0)` multiplied by the full
scale `32768.0`. -/
noncomputable def threshRms (threshold_db : ℝ) : ℝ :=
  10 ^ (threshold_db / 20) * 32768

/-- The Rust slice `&samples[i..j]` as a list: drop `i` elements, take
`j - i`. -/
def slice (l : List ℤ) (i j : ℕ) : List ℤ :=
  (l.drop i).take (j - i)

/-- The window examined by the forward scan at candidate index `i`:
`rms(&samples[i..(i + window_size).min(len)]) > threshold_rms`
(src/main.rs lines 91-97). -/
noncomputable def loudF (samples : List ℤ) (thr : ℝ) (w : ℕ) (i : ℕ) : Prop :=
  thr < rms (slice samples i (min (i + w) samples.length))

/-- The window examined by the backward scan at candidate index `i`:
`rms(&samples[i.saturating_sub(window_size)..i]) > threshold_rms`
(src/main.rs lines 102-108); `ℕ` subtraction is saturating. -/
noncomputable def loudB (samples : List ℤ) (thr : ℝ) (w : ℕ) (i : ℕ) : Prop :=
  thr < rms (slice samples (i - w) i)

/-- The indices visited by the Rust iterator `(0..len).step_by(w)` (for
`w ≥ 1`): the multiples `k * w` with `k * w < len`, i.e. `k` below
`⌈len / w⌉ = (len + w - 1) / w`, in increasing order. -/
def forwardCandidates (len w : ℕ) : List ℕ :=
  (List.range ((len + w - 1) / w)).map (fun k => k * w)

/-- The indices visited by the Rust iterator `(0..=len).rev().step_by(w)`
(for `w ≥ 1`): the values `len - k * w` for `k = 0, 1, …, len / w`, in
decreasing order. -/
def backwardCandidates (len w : ℕ) : List ℕ :=
  (List.range (len / w + 1)).map (fun k => len - k * w)

open Classical in
/-- First element of the list satisfying `p`, if any: models a Rust
`for`-loop that breaks at the first hit. -/
noncomputable def findFirst (p : ℕ → Prop) : List ℕ → Option ℕ
  | [] => none
  | a :: l => if p a then some a else findFirst p l

/-- The `start_trim` computed by the forward scan of `trim_samples`
(src/main.rs lines 90-98): first qualifying candidate, default `len`. -/
noncomputable def start_trim (samples : List ℤ) (thr : ℝ) (w : ℕ) : ℕ :=
  (findFirst (loudF samples thr w) (forwardCandidates samples.length w)).getD
    samples.length

/-- The `end_trim` computed by the backward scan of `trim_samples`
(src/main.rs lines 101-109): first (largest) qualifying candidate,
default `0`. -/
noncomputable def end_trim (samples : List ℤ) (thr : ℝ) (w : ℕ) : ℕ :=
  (findFirst (loudB samples thr w) (backwardCandidates samples.length w)).getD 0

/-- The final selection of `trim_samples` (src/main.rs lines 111-115):
the slice `[start_trim, end_trim)` when `start_trim < end_trim`, otherwise
the empty vector. -/
noncomputable def trimCore (samples : List ℤ) (thr : ℝ) (w : ℕ) : List ℤ :=
  if start_trim samples thr w < end_trim samples thr w then
    slice samples (start_trim samples thr w) (end_trim samples thr w)
  else []

/-- Model of `fn trim_samples(samples, threshold_db, window_size) ->
Result<Vec<i16>>` (src/main.rs lines 79-118).  The outer `Option` models
panic: for non-empty input and `window_size = 0` the Rust iterator
`step_by(0)` panics, modelled as `none`; empty input returns `Ok(vec![])`
before either scan runs. -/
noncomputable def trim_samples (samples : List ℤ) (threshold_db : ℝ)
    (window_size : ℕ) : Option (Except String (List ℤ)) :=
  if samples.length = 0 then some (Except.ok [])
  else if window_size = 0 then none
  else some (Except.ok (trimCore samples (threshRms threshold_db) window_size))

open Classical in
/-- Written from the words of the spec, to be compared with the scanning
implementation: the start boundary is the smallest index in the grid
`{0, w, 2w, …}` (equivalently: divisible by `w`) below `len` whose forward
window has RMS strictly above the threshold, and `len` when no window
qualifies. -/
noncomputable def startSpec (samples : List ℤ) (db : ℝ) (w : ℕ) : ℕ :=
  if h : ∃ i, w ∣ i ∧ i < samples.length ∧ loudF samples (threshRms db) w i
  then Nat.find h else samples.length

open Classical in
/-- Written from the words of the spec, to be compared with the scanning
implementation: the end boundary is the largest candidate `len - k * w`
(with `k ≤ len / w`, the enumeration of `(0..=len).rev().step_by(w)`)
whose backward window has RMS strictly above the threshold, and `0` when
no window qualifies.  The largest such candidate corresponds to the least
such `k`. -/
noncomputable def endSpec (samples : List ℤ) (db : ℝ) (w : ℕ) : ℕ :=
  if h : ∃ k, k ≤ samples.length / w ∧
      loudB samples (threshRms db) w (samples.length - k * w)
  then samples.length - Nat.find h * w else 0

/-- Unwraps the result of `trim_samples` inside `trim_wav`
(`let trimmed_samples = trim_samples(&samples, threshold_db, 800)?;`).
The default arms are unreachable: with window size `800` the call neither
panics nor errors (see `trim_samples_ok`). -/
def unwrapTrim (o : Option (Except String (List ℤ))) : List ℤ :=
  match o with
  | some (Except.ok t) => t
  | _ => []

/-- Observable I/O steps of `trim_wav`, recorded so that ordering facts
("rejected before samples are decoded / before the output is created")
can be stated. -/
inductive Ev where
  | openInput : Ev
  | readSamples : Ev
  | createOutput : Ev
  | writeSample : ℤ → Ev
  | finalize : Ev
deriving DecidableEq

/-- The write loop of `trim_wav`
(`for &sample in &trimmed_samples { writer.write_sample(sample)? }`):
stops at the first failing write; records one event per attempted write. -/
def writeAll (wr : ℤ → Except String Unit) :
    List ℤ → Except String Unit × List Ev
  | [] => (Except.ok (), [])
  | v :: rest =>
    match wr v with
    | Except.error e => (Except.error ("Failed to write sample: " ++ e),
        [Ev.writeSample v])
    | Except.ok _ =>
      match writeAll wr rest with
      | (r, t) => (r, Ev.writeSample v :: t)

/-- Model of `fn trim_wav(input_path, output_path, threshold_db) ->
Result<()>` (src/main.rs lines 37-67).  The filesystem is abstracted by the
outcome parameters: `openRes` (opening and parsing the input container),
the decode outcome stored in the `WavFile`, `createRes` (creating the
output file), `writeRes` (writing one sample) and `finalizeRes`.  Returns
the function result together with the trace of I/O steps reached. -/
noncomputable def trim_wav (threshold_db : ℝ) (openRes : Except String WavFile)
    (createRes : Except String Unit) (writeRes : ℤ → Except String Unit)
    (finalizeRes : Except String Unit) : Except String Unit × List Ev :=
  match openRes with
  | Except.error e => (Except.error ("Failed to open input WAV file: " ++ e), [])
  | Except.ok file =>
    if file.spec.channels ≠ 1 ∨ file.spec.sample_rate ≠ 16000 ∨
        file.spec.bits_per_sample ≠ 16 ∨
        file.spec.sample_format ≠ SampleFormat.int then
      (Except.error "Unsupported WAV format: expected mono 16-bit PCM at 16kHz",
        [Ev.openInput])
    else
      match file.samples with
      | Except.error e => (Except.error ("Failed to read samples: " ++ e),
          [Ev.openInput, Ev.readSamples])
      | Except.ok samples =>
        match createRes with
        | Except.error e =>
            (Except.error ("Failed to create output WAV file: " ++ e),
              [Ev.openInput, Ev.readSamples])
        | Except.ok _ =>
          match writeAll writeRes (unwrapTrim (trim_samples samples threshold_db 800)) with
          | (Except.error e, wtrace) =>
              (Except.error e,
                [Ev.openInput, Ev.readSamples, Ev.createOutput] ++ wtrace)
          | (Except.ok _, wtrace) =>
            match finalizeRes with
            | Except.error e =>
                (Except.error ("Failed to finalize WAV writer: " ++ e),
                  [Ev.openInput, Ev.readSamples, Ev.createOutput] ++ wtrace)
            | Except.ok _ =>
                (Except.ok (),
                  [Ev.openInput, Ev.readSamples, Ev.createOutput] ++ wtrace ++
                    [Ev.finalize])

/-- Model of the parsed CLI arguments (`struct Args`). -/
structure Args where
  input_dir : String
  output_dir : String
  threshold : ℝ

/-- One entry produced by the directory walk, abstracting the filesystem:
whether it is a regular file, its extension, and the outcomes of the
per-entry operations (`strip_prefix`, creating the parent directory, and
the I/O performed by `trim_wav`). -/
structure Entry where
  isFile : Bool
  ext : Option String
  relPath : Except String Unit
  hasParent : Bool
  createParentRes : Except String Unit
  openRes : Except String WavFile
  createRes : Except String Unit
  writeRes : ℤ → Except String Unit
  finalizeRes : Except String Unit

/-- The entry selection test of the walk loop
(`entry.file_type().is_file() && entry.path().extension() == Some("wav")`). -/
def selectedEntry (e : Entry) : Prop :=
  e.isFile = true ∧ e.ext = some "wav"

instance (e : Entry) : Decidable (selectedEntry e) := by
  unfold selectedEntry; infer_instance

/-- Model of the walk loop of `main` (src/main.rs lines 133-158), returning
the count of successfully processed files.  Faithful to the source: the
`?` on `strip_prefix(...)` and on `fs::create_dir_all(parent)` propagates
out of `main` (aborting the batch), while a `trim_wav` error is only
logged and the loop continues. -/
noncomputable def mainLoop (thr : ℝ) : List Entry → Except String ℕ
  | [] => Except.ok 0
  | e :: rest =>
    if selectedEntry e then
      match e.relPath with
      | Except.error err =>
          Except.error ("Failed to compute relative path: " ++ err)
      | Except.ok _ =>
        match (if e.hasParent then e.createParentRes else Except.ok ()) with
        | Except.error err =>
            Except.error ("Failed to create output subdirectory: " ++ err)
        | Except.ok _ =>
          match (trim_wav thr e.openRes e.createRes e.writeRes
              e.finalizeRes).1 with
          | Except.error _ => mainLoop thr rest
          | Except.ok _ => Except.map (· + 1) (mainLoop thr rest)
    else mainLoop thr rest

/-- Model of `fn main() -> Result<()>` (src/main.rs lines 120-162):
argument parsing, the input-directory existence check and the creation of
the output root are abstracted by the outcome parameters; then the walk
loop runs over the entries. -/
noncomputable def mainRun (argsRes : Except String Args) (inputDirExists : Bool)
    (createOutRes : Except String Unit) (entries : List Entry) :
    Except String ℕ :=
  match argsRes with
  | Except.error e => Except.error e
  | Except.ok args =>
    if inputDirExists = true then
      match createOutRes with
      | Except.error e =>
          Except.error ("Failed to create output directory: " ++ e)
      | Except.ok _ => mainLoop args.threshold entries
    else Except.error "Input directory does not exist"

/-! ### Basic facts about the energy estimator and the threshold -/

theorem sumSq_nonneg (chunk : List ℤ) : 0 ≤ sumSq chunk := by
  refine List.sum_nonneg ?_
  intro x hx
  rcases List.mem_map.1 hx with ⟨s, _, rfl⟩
  positivity

theorem rms_nonneg (chunk : List ℤ) : 0 ≤ rms chunk := by
  unfold rms
  split
  · exact le_refl 0
  · exact Real.sqrt_nonneg _

theorem sumSq_replicate (n : ℕ) (v : ℤ) :
    sumSq (List.replicate n v) = n * ((v : ℝ)) ^ 2 := by
  unfold sumSq
  rw [List.map_replicate, List.sum_replicate, nsmul_eq_mul]

theorem rms_replicate (n : ℕ) (v : ℤ) (hn : n ≠ 0) :
    rms (List.replicate n v) = |(v : ℝ)| := by
  unfold rms
  rw [if_neg (by simp [List.replicate_eq_nil_iff, hn])]
  rw [sumSq_replicate, List.length_replicate]
  rw [mul_div_cancel_left₀ _ (by exact_mod_cast hn)]
  exact Real.sqrt_sq_eq_abs _

theorem rms_replicate_zero (n : ℕ) : rms (List.replicate n (0 : ℤ)) = 0 := by
  rcases Nat.eq_zero_or_pos n with h | h
  · subst h; simp [rms]
  · rw [rms_replicate n 0 (Nat.pos_iff_ne_zero.1 h)]; simp

theorem rms_gt_iff (chunk : List ℤ) (t : ℝ) (hc : chunk ≠ []) (ht : 0 ≤ t) :
    t < rms chunk ↔ t ^ 2 * chunk.length < sumSq chunk := by
  unfold rms
  rw [if_neg hc, Real.lt_sqrt ht]
  have hlen : 0 < (chunk.length : ℝ) := by
    exact_mod_cast List.length_pos.2 hc
  rw [lt_div_iff₀ hlen]

theorem threshRms_pos (db : ℝ) : 0 < threshRms db := by
  unfold threshRms
  have h : (0:ℝ) < 10 ^ (db / 20) := Real.rpow_pos_of_pos (by norm_num) _
  nlinarith

theorem threshRms_zero : threshRms 0 = 32768 := by
  unfold threshRms
  rw [zero_div, Real.rpow_zero, one_mul]

theorem threshRms_sq (db : ℝ) :
    threshRms db ^ 2 = 10 ^ (db / 10) * 32768 ^ 2 := by
  unfold threshRms
  rw [mul_pow, ← Real.rpow_natCast ((10:ℝ) ^ (db / 20)) 2,
    ← Real.rpow_mul (by norm_num : (0:ℝ) ≤ 10)]
  norm_num
  congr 1
  ring

/-! ### Facts about slices -/

theorem slice_length (l : List ℤ) (i j : ℕ) :
    (slice l i j).length = min (j - i) (l.length - i) := by
  simp [slice]

theorem slice_full (l : List ℤ) : slice l 0 l.length = l := by
  simp [slice]

theorem slice_nil (i j : ℕ) : slice ([] : List ℤ) i j = [] := by
  simp [slice]

theorem slice_replicate (L i j : ℕ) (v : ℤ) :
    slice (List.replicate L v) i j = List.replicate (min (j - i) (L - i)) v := by
  simp [slice, List.drop_replicate, List.take_replicate]

/-! ### Facts about findFirst and the candidate lists -/

theorem findFirst_eq_none {p : ℕ → Prop} {l : List ℕ} :
    findFirst p l = none ↔ ∀ x ∈ l, ¬ p x := by
  induction l with
  | nil => simp [findFirst]
  | cons a l ih =>
    by_cases h : p a
    · simp [findFirst, if_pos h, h]
    · simp [findFirst, if_neg h, h, ih]

theorem findFirst_map {f : ℕ → ℕ} {p : ℕ → Prop} {l : List ℕ} :
    findFirst p (l.map f) = Option.map f (findFirst (fun k => p (f k)) l) := by
  induction l with
  | nil => simp [findFirst]
  | cons a l ih =>
    by_cases h : p (f a)
    · simp [findFirst, if_pos h]
    · simp [findFirst, if_neg h, ih]

theorem findFirst_append_of_some {p : ℕ → Prop} {l₁ l₂ : List ℕ} {x : ℕ}
    (h : findFirst p l₁ = some x) : findFirst p (l₁ ++ l₂) = some x := by
  induction l₁ with
  | nil => simp [findFirst] at h
  | cons a l ih =>
    by_cases ha : p a
    · rw [findFirst, if_pos ha] at h
      simpa [findFirst, if_pos ha] using h
    · rw [findFirst, if_neg ha] at h
      simpa [findFirst, if_neg ha] using ih h

theorem findFirst_append_of_none {p : ℕ → Prop} {l₁ l₂ : List ℕ}
    (h : findFirst p l₁ = none) : findFirst p (l₁ ++ l₂) = findFirst p l₂ := by
  induction l₁ with
  | nil => simp
  | cons a l ih =>
    by_cases ha : p a
    · rw [findFirst, if_pos ha] at h; exact absurd h (by simp)
    · rw [findFirst, if_neg ha] at h
      simpa [findFirst, if_neg ha] using ih h

theorem findFirst_range_eq_some {q : ℕ → Prop} {m k : ℕ} :
    findFirst q (List.range m) = some k ↔
      k < m ∧ q k ∧ ∀ j, j < k → ¬ q j := by
  induction m generalizing k with
  | zero => simp [List.range_zero, findFirst]
  | succ n ih =>
    rw [List.range_succ]
    cases h : findFirst q (List.range n) with
    | some x =>
      rw [findFirst_append_of_some h]
      rcases ih.1 h with ⟨hxn, hqx, hmin⟩
      constructor
      · rintro hx
        have hx' : x = k := by simpa using hx
        subst hx'
        exact ⟨Nat.lt_succ_of_lt hxn, hqx, hmin⟩
      · rintro ⟨hk, hqk, hmink⟩
        have : x = k := by
          rcases Nat.lt_trichotomy x k with hlt | heq | hgt
          · exact absurd hqx (hmink x hlt)
          · exact heq
          · exact absurd hqk (hmin k hgt)
        simp [this]
    | none =>
      rw [findFirst_append_of_none h]
      have hall : ∀ j < n, ¬ q j := by
        intro j hj
        exact findFirst_eq_none.1 h j (List.mem_range.2 hj)
      by_cases hn : q n
      · rw [findFirst, if_pos hn]
        constructor
        · rintro hx
          have hx' : n = k := by simpa using hx
          subst hx'
          exact ⟨Nat.lt_succ_self _, hn, hall⟩
        · rintro ⟨hk, hqk, _⟩
          have : k = n := by
            rcases Nat.lt_succ_iff_lt_or_eq.1 hk with hlt | heq
            · exact absurd hqk (hall k hlt)
            · exact heq
          simp [this]
      · rw [findFirst, if_neg hn, findFirst]
        constructor
        · intro hx; exact absurd hx (by simp)
        · rintro ⟨hk, hqk, _⟩
          rcases Nat.lt_succ_iff_lt_or_eq.1 hk with hlt | heq
          · exact absurd hqk (hall k hlt)
          · subst heq; exact absurd hqk hn

theorem findFirst_range_eq_none {q : ℕ → Prop} {m : ℕ} :
    findFirst q (List.range m) = none ↔ ∀ k < m, ¬ q k := by
  rw [findFirst_eq_none]
  constructor
  · intro h k hk; exact h k (List.mem_range.2 hk)
  · intro h k hk; exact h k (List.mem_range.1 hk)

theorem lt_ceil_iff {len w k : ℕ} (hw : 0 < w) :
    k < (len + w - 1) / w ↔ k * w < len := by
  rw [Nat.lt_iff_add_one_le, Nat.le_div_iff_mul_le hw, add_mul, one_mul]
  omega

theorem mem_forwardCandidates {len w i : ℕ} (hw : 0 < w) :
    i ∈ forwardCandidates len w ↔ w ∣ i ∧ i < len := by
  unfold forwardCandidates
  simp only [List.mem_map, List.mem_range]
  constructor
  · rintro ⟨k, hk, rfl⟩
    exact ⟨Dvd.intro_left k rfl, (lt_ceil_iff hw).1 hk⟩
  · rintro ⟨⟨k, rfl⟩, hlt⟩
    exact ⟨k, (lt_ceil_iff hw).2 (by rwa [mul_comm] at hlt), (mul_comm w k).symm⟩

theorem mem_backwardCandidates {len w i : ℕ} :
    i ∈ backwardCandidates len w ↔ ∃ k, k ≤ len / w ∧ i = len - k * w := by
  unfold backwardCandidates
  simp only [List.mem_map, List.mem_range, Nat.lt_succ_iff]
  constructor
  · rintro ⟨k, hk, rfl⟩; exact ⟨k, hk, rfl⟩
  · rintro ⟨k, hk, rfl⟩; exact ⟨k, hk, rfl⟩

/-! ### Characterisation of the two scans -/

theorem start_trim_eq {samples : List ℤ} {thr : ℝ} {w i₀ : ℕ} (hw : 0 < w)
    (hd : w ∣ i₀) (hlt : i₀ < samples.length)
    (hl : loudF samples thr w i₀)
    (hmin : ∀ i, w ∣ i → i < i₀ → ¬ loudF samples thr w i) :
    start_trim samples thr w = i₀ := by
  obtain ⟨k₀, rfl⟩ : ∃ k, i₀ = k * w := by
    rcases hd with ⟨k, hk⟩; exact ⟨k, by rw [hk, mul_comm]⟩
  unfold start_trim forwardCandidates
  rw [findFirst_map]
  have : findFirst (fun k => loudF samples thr w (k * w))
      (List.range ((samples.length + w - 1) / w)) = some k₀ := by
    refine findFirst_range_eq_some.2 ⟨(lt_ceil_iff hw).2 hlt, hl, ?_⟩
    intro j hj
    exact hmin (j * w) (Dvd.intro_left j rfl)
      ((Nat.mul_lt_mul_right hw).2 hj)
  rw [this]
  rfl

theorem start_trim_eq_len {samples : List ℤ} {thr : ℝ} {w : ℕ} (hw : 0 < w)
    (hall : ∀ i, w ∣ i → i < samples.length → ¬ loudF samples thr w i) :
    start_trim samples thr w = samples.length := by
  unfold start_trim forwardCandidates
  rw [findFirst_map]
  have : findFirst (fun k => loudF samples thr w (k * w))
      (List.range ((samples.length + w - 1) / w)) = none := by
    refine findFirst_range_eq_none.2 ?_
    intro k hk
    exact hall (k * w) (Dvd.intro_left k rfl) ((lt_ceil_iff hw).1 hk)
  rw [this]
  rfl

theorem start_trim_spec (samples : List ℤ) (thr : ℝ) (w : ℕ) (hw : 0 < w) :
    start_trim samples thr w = samples.length ∨
      (w ∣ start_trim samples thr w ∧
        start_trim samples thr w < samples.length ∧
        loudF samples thr w (start_trim samples thr w)) := by
  unfold start_trim
  cases h : findFirst (loudF samples thr w)
      (forwardCandidates samples.length w) with
  | none => left; rfl
  | some x =>
    right
    unfold forwardCandidates at h
    rw [findFirst_map] at h
    cases h' : findFirst (fun k => loudF samples thr w (k * w))
        (List.range ((samples.length + w - 1) / w)) with
    | none => rw [h'] at h; exact absurd h (by simp)
    | some k =>
      rw [h'] at h
      have hx : x = k * w := by simpa using h.symm
      rcases findFirst_range_eq_some.1 h' with ⟨hk, hq, _⟩
      subst hx
      simp only [Option.getD_some]
      exact ⟨Dvd.intro_left k rfl, (lt_ceil_iff hw).1 hk, hq⟩

theorem end_trim_eq {samples : List ℤ} {thr : ℝ} {w k₀ : ℕ}
    (hk : k₀ ≤ samples.length / w)
    (hl : loudB samples thr w (samples.length - k₀ * w))
    (hmin : ∀ k, k < k₀ → ¬ loudB samples thr w (samples.length - k * w)) :
    end_trim samples thr w = samples.length - k₀ * w := by
  unfold end_trim backwardCandidates
  rw [findFirst_map]
  have : findFirst (fun k => loudB samples thr w (samples.length - k * w))
      (List.range (samples.length / w + 1)) = some k₀ := by
    refine findFirst_range_eq_some.2 ⟨Nat.lt_succ_of_le hk, hl, ?_⟩
    intro j hj
    exact hmin j hj
  rw [this]
  rfl

theorem end_trim_eq_zero {samples : List ℤ} {thr : ℝ} {w : ℕ}
    (hall : ∀ k, k ≤ samples.length / w →
      ¬ loudB samples thr w (samples.length - k * w)) :
    end_trim samples thr w = 0 := by
  unfold end_trim backwardCandidates
  rw [findFirst_map]
  have : findFirst (fun k => loudB samples thr w (samples.length - k * w))
      (List.range (samples.length / w + 1)) = none := by
    refine findFirst_range_eq_none.2 ?_
    intro k hk
    exact hall k (Nat.lt_succ_iff.1 hk)
  rw [this]
  rfl

theorem end_trim_spec (samples : List ℤ) (thr : ℝ) (w : ℕ) :
    end_trim samples thr w = 0 ∨
      (∃ k, k ≤ samples.length / w ∧
        end_trim samples thr w = samples.length - k * w ∧
        loudB samples thr w (end_trim samples thr w)) := by
  unfold end_trim
  cases h : findFirst (loudB samples thr w)
      (backwardCandidates samples.length w) with
  | none => left; rfl
  | some x =>
    right
    unfold backwardCandidates at h
    rw [findFirst_map] at h
    cases h' : findFirst (fun k => loudB samples thr w (samples.length - k * w))
        (List.range (samples.length / w + 1)) with
    | none => rw [h'] at h; exact absurd h (by simp)
    | some k =>
      rw [h'] at h
      have hx : x = samples.length - k * w := by simpa using h.symm
      rcases findFirst_range_eq_some.1 h' with ⟨hk, hq, _⟩
      subst hx
      simp only [Option.getD_some]
      exact ⟨k, Nat.lt_succ_iff.1 hk, rfl, hq⟩

theorem end_trim_le (samples : List ℤ) (thr : ℝ) (w : ℕ) :
    end_trim samples thr w ≤ samples.length := by
  rcases end_trim_spec samples thr w with h | ⟨k, _, h, _⟩
  · rw [h]; exact Nat.zero_le _
  · rw [h]; exact Nat.sub_le _ _

theorem trim_samples_ok (samples : List ℤ) (db : ℝ) (w : ℕ) (hw : 0 < w) :
    trim_samples samples db w =
      some (Except.ok (if samples.length = 0 then []
        else trimCore samples (threshRms db) w)) := by
  unfold trim_samples
  by_cases h : samples.length = 0
  · rw [if_pos h, if_pos h]
  · rw [if_neg h, if_neg h, if_neg (Nat.pos_iff_ne_zero.1 hw)]

/-! ### Claim theorems -/

/-- C3: for every chunk of i16 samples, `rms` returns
`sqrt((sum of s_i^2) / n)` with the samples widened to 64-bit floating
point (idealised as `ℝ`) before squaring, and for the empty chunk it
returns exactly `0.0`; it is a total pure function.  (For the empty chunk
the closed form also evaluates to `0` because `0 / 0 = 0` and
`sqrt 0 = 0`, so the first conjunct holds for all chunks.) -/
theorem rms_matches_spec :
    (∀ chunk : List ℤ, rms chunk =
      Real.sqrt (((chunk.map (fun s : ℤ => ((s : ℝ)) ^ 2)).sum) /
        chunk.length)) ∧
    rms ([] : List ℤ) = 0 := by
  constructor
  · intro chunk
    by_cases h : chunk = []
    · subst h
      simp [rms]
    · unfold rms sumSq
      rw [if_neg h]
  · simp [rms]

/-- C9: `trim_samples` never returns an `Err`: every execution that
returns (does not panic, i.e. is not `none`) produces `Ok`. -/
theorem trim_samples_never_err :
    ∀ (samples : List ℤ) (db : ℝ) (w : ℕ),
      trim_samples samples db w = none ∨
      ∃ v, trim_samples samples db w = some (Except.ok v) := by
  intro samples db w
  unfold trim_samples
  by_cases h0 : samples.length = 0
  · right; rw [if_pos h0]; exact ⟨[], rfl⟩
  · rw [if_neg h0]
    by_cases hw : w = 0
    · left; rw [if_pos hw]
    · right; rw [if_neg hw]; exact ⟨_, rfl⟩

/-- C10: under the precondition `window_size ≥ 1`, `trim_samples` is total
(returns `Ok`, never panics), every slice range taken by either scan is
within bounds, and the precondition is necessary: for `window_size = 0`
and non-empty input the `step_by(0)` iteration panics (modelled as
`none`), while empty input returns before either scan runs. -/
theorem trim_samples_safe :
    ∀ (samples : List ℤ) (db : ℝ) (w : ℕ), 0 < w →
      (∃ v, trim_samples samples db w = some (Except.ok v)) ∧
      (∀ i ∈ forwardCandidates samples.length w,
        i ≤ min (i + w) samples.length ∧
        min (i + w) samples.length ≤ samples.length) ∧
      (∀ i ∈ backwardCandidates samples.length w,
        i - w ≤ i ∧ i ≤ samples.length) ∧
      (samples ≠ [] → trim_samples samples db 0 = none) := by
  intro samples db w hw
  refine ⟨⟨_, trim_samples_ok samples db w hw⟩, ?_, ?_, ?_⟩
  · intro i hi
    have h := (mem_forwardCandidates hw).1 hi
    exact ⟨le_min (Nat.le_add_right _ _) (le_of_lt h.2), min_le_right _ _⟩
  · intro i hi
    rcases mem_backwardCandidates.1 hi with ⟨k, _, rfl⟩
    exact ⟨Nat.sub_le _ _, Nat.sub_le _ _⟩
  · intro hne
    unfold trim_samples
    rw [if_neg (by simpa [List.length_eq_zero] using hne), if_pos rfl]

/-- Witness for C10 at a concrete input. -/
theorem trim_samples_safe_witness :
    (0 < 1) ∧ ∃ v, trim_samples [(5 : ℤ)] 0 1 = some (Except.ok v) :=
  ⟨by decide, (trim_samples_safe [(5 : ℤ)] 0 1 (by decide)).1⟩

/-- C1: for every sequence, finite `threshold_db` and `window_size ≥ 1`,
`trim_samples` returns exactly `samples[start..end)` where `start` is the
smallest grid index (multiple of the window size, below the length) whose
forward window has RMS strictly above `threshold_rms` (default: the
length), `end` is the largest candidate of the backward enumeration whose
window has RMS strictly above `threshold_rms` (default: `0`), and the
result is empty whenever `start ≥ end`; empty input yields the empty
result immediately (the closed form below also covers it, both boundaries
being `0`). -/
theorem trim_samples_matches_boundary_spec :
    ∀ (samples : List ℤ) (db : ℝ) (w : ℕ), 0 < w →
      trim_samples samples db w = some (Except.ok
        (if startSpec samples db w < endSpec samples db w then
          slice samples (startSpec samples db w) (endSpec samples db w)
        else [])) := by
  intro s db w hw
  classical
  have hthr := threshRms_pos db
  by_cases h0 : s.length = 0
  · have hs : s = [] := List.length_eq_zero.1 h0
    subst hs
    have h1 : startSpec [] db w = 0 := by
      unfold startSpec
      rw [dif_neg]
      · rfl
      · rintro ⟨i, -, hi, -⟩
        simp at hi
    have h2 : endSpec [] db w = 0 := by
      unfold endSpec
      rw [dif_neg]
      rintro ⟨k, -, hl⟩
      unfold loudB at hl
      rw [slice_nil] at hl
      have : rms ([] : List ℤ) = 0 := by simp [rms]
      rw [this] at hl
      exact absurd (lt_trans hthr hl) (lt_irrefl 0)
    rw [h1, h2]
    simp [trim_samples]
  · rw [trim_samples_ok _ _ _ hw, if_neg h0]
    have hstart : start_trim s (threshRms db) w = startSpec s db w := by
      by_cases hex : ∃ i, w ∣ i ∧ i < s.length ∧ loudF s (threshRms db) w i
      · have hspec := Nat.find_spec hex
        have heq : startSpec s db w = Nat.find hex := by
          unfold startSpec; rw [dif_pos hex]
        rw [heq]
        refine start_trim_eq hw hspec.1 hspec.2.1 hspec.2.2 ?_
        intro i hdi hlt hli
        exact Nat.find_min hex hlt ⟨hdi, lt_trans hlt hspec.2.1, hli⟩
      · have heq : startSpec s db w = s.length := by
          unfold startSpec; rw [dif_neg hex]
        rw [heq]
        refine start_trim_eq_len hw ?_
        intro i hdi hlt hli
        exact hex ⟨i, hdi, hlt, hli⟩
    have hend : end_trim s (threshRms db) w = endSpec s db w := by
      by_cases hex : ∃ k, k ≤ s.length / w ∧
          loudB s (threshRms db) w (s.length - k * w)
      · have hspec := Nat.find_spec hex
        have heq : endSpec s db w = s.length - Nat.find hex * w := by
          unfold endSpec; rw [dif_pos hex]
        rw [heq]
        refine end_trim_eq hspec.1 hspec.2 ?_
        intro k hk hlk
        exact Nat.find_min hex hk ⟨le_trans (le_of_lt hk) hspec.1, hlk⟩
      · have heq : endSpec s db w = 0 := by
          unfold endSpec; rw [dif_neg hex]
        rw [heq]
        refine end_trim_eq_zero ?_
        intro k hk hlk
        exact hex ⟨k, hk, hlk⟩
    unfold trimCore
    rw [hstart, hend]

/-- Witness for C1 at a concrete input. -/
theorem trim_samples_matches_boundary_spec_witness :
    trim_samples [(5 : ℤ)] 0 1 = some (Except.ok
      (if startSpec [(5 : ℤ)] 0 1 < endSpec [(5 : ℤ)] 0 1 then
        slice [(5 : ℤ)] (startSpec [(5 : ℤ)] 0 1) (endSpec [(5 : ℤ)] 0 1)
      else [])) :=
  trim_samples_matches_boundary_spec [(5 : ℤ)] 0 1 (by decide)

theorem rms_single (v : ℤ) : rms [v] = |(v : ℝ)| := by
  rw [show [v] = List.replicate 1 v from rfl, rms_replicate 1 v one_ne_zero]

/-- Trimming an all-zero sequence yields the empty sequence (for any
positive window size), since `threshold_rms` is always positive. -/
theorem trim_replicate_zero (L : ℕ) (db : ℝ) (w : ℕ) (hw : 0 < w) :
    trim_samples (List.replicate L (0 : ℤ)) db w = some (Except.ok []) := by
  have hthr := threshRms_pos db
  by_cases hL : L = 0
  · subst hL
    rw [trim_samples_ok _ _ _ hw, if_pos (by simp)]
  · rw [trim_samples_ok _ _ _ hw, if_neg (by simp [hL])]
    have hnl : ∀ i j : ℕ,
        ¬ threshRms db < rms (slice (List.replicate L (0 : ℤ)) i j) := by
      intro i j
      rw [slice_replicate, rms_replicate_zero]
      exact not_lt_of_le (le_of_lt hthr)
    have hs : start_trim (List.replicate L (0 : ℤ)) (threshRms db) w =
        (List.replicate L (0 : ℤ)).length := by
      refine start_trim_eq_len hw ?_
      intro i _ _ hli
      exact hnl _ _ hli
    have he : end_trim (List.replicate L (0 : ℤ)) (threshRms db) w = 0 := by
      refine end_trim_eq_zero ?_
      intro k _ hlk
      exact hnl _ _ hlk
    unfold trimCore
    rw [hs, he, if_neg (Nat.not_lt_zero _)]

/-- C8: with a window strictly larger than the (non-empty) sequence, both
scans examine exactly one candidate whose window is the whole sequence;
the result is the whole input when its RMS strictly exceeds the linear
threshold, and empty otherwise. -/
theorem trim_samples_single_window :
    ∀ (samples : List ℤ) (db : ℝ) (w : ℕ), samples ≠ [] →
      samples.length < w →
      forwardCandidates samples.length w = [0] ∧
      backwardCandidates samples.length w = [samples.length] ∧
      (threshRms db < rms samples →
        trim_samples samples db w = some (Except.ok samples)) ∧
      (¬ threshRms db < rms samples →
        trim_samples samples db w = some (Except.ok [])) := by
  intro s db w hne hlt
  have h0 : s.length ≠ 0 := by simpa [List.length_eq_zero] using hne
  have hw : 0 < w := lt_of_le_of_lt (Nat.zero_le _) hlt
  have hcnt : (s.length + w - 1) / w = 1 := by
    refine Nat.div_eq_of_lt_le (by omega) (by omega)
  have hfc : forwardCandidates s.length w = [0] := by
    unfold forwardCandidates
    rw [hcnt, show List.range 1 = [0] from rfl]
    simp
  have hdiv : s.length / w = 0 := Nat.div_eq_of_lt hlt
  have hbc : backwardCandidates s.length w = [s.length] := by
    unfold backwardCandidates
    rw [hdiv, zero_add, show List.range 1 = [0] from rfl]
    simp
  have hLF : loudF s (threshRms db) w 0 ↔ threshRms db < rms s := by
    unfold loudF
    rw [zero_add, min_eq_right (le_of_lt hlt), slice_full]
  have hLB : loudB s (threshRms db) w s.length ↔ threshRms db < rms s := by
    unfold loudB
    rw [Nat.sub_eq_zero_of_le (le_of_lt hlt), slice_full]
  refine ⟨hfc, hbc, ?_, ?_⟩
  · intro hloud
    rw [trim_samples_ok _ _ _ hw, if_neg h0]
    have hs : start_trim s (threshRms db) w = 0 :=
      start_trim_eq hw (dvd_zero w) (Nat.pos_of_ne_zero h0) (hLF.2 hloud)
        (fun i _ hi => absurd hi (Nat.not_lt_zero i))
    have he : end_trim s (threshRms db) w = s.length := by
      have h := @end_trim_eq s (threshRms db) w 0 (Nat.zero_le _)
        (by rw [zero_mul, Nat.sub_zero]; exact hLB.2 hloud)
        (fun k hk => absurd hk (Nat.not_lt_zero k))
      rwa [zero_mul, Nat.sub_zero] at h
    unfold trimCore
    rw [hs, he, if_pos (Nat.pos_of_ne_zero h0), slice_full]
  · intro hq
    rw [trim_samples_ok _ _ _ hw, if_neg h0]
    have hs : start_trim s (threshRms db) w = s.length := by
      refine start_trim_eq_len hw ?_
      intro i hdi hilt hli
      have hi0 : i = 0 := Nat.eq_zero_of_dvd_of_lt hdi (lt_trans hilt hlt)
      subst hi0
      exact hq (hLF.1 hli)
    have he : end_trim s (threshRms db) w = 0 := by
      refine end_trim_eq_zero ?_
      intro k hk hlk
      have hk0 : k = 0 := Nat.le_zero.1 (hdiv ▸ hk)
      subst hk0
      rw [zero_mul, Nat.sub_zero] at hlk
      exact hq (hLB.1 hlk)
    unfold trimCore
    rw [hs, he, if_neg (Nat.not_lt_zero _)]

/-- Witness for C8 at a concrete input (the loud branch). -/
theorem trim_samples_single_window_witness :
    trim_samples [(40000 : ℤ)] 0 2 = some (Except.ok [(40000 : ℤ)]) :=
  (trim_samples_single_window [(40000 : ℤ)] 0 2 (by decide) (by decide)).2.2.1
    (by
      rw [rms_single, threshRms_zero]
      have h : |((40000 : ℤ) : ℝ)| = 40000 := by
        push_cast
        rw [abs_of_nonneg (by norm_num : (0:ℝ) ≤ 40000)]
      rw [h]
      norm_num)

/-- C6: if every non-empty window examined by either scan has RMS strictly
above the linear threshold (the candidate `0` of the backward scan has an
empty window, which the scan can only reach after every loud candidate
failed, so it is exempted), `trim_samples` returns the input unchanged. -/
theorem trim_all_loud_identity :
    ∀ (samples : List ℤ) (db : ℝ) (w : ℕ), 0 < w →
      (∀ i ∈ forwardCandidates samples.length w,
        loudF samples (threshRms db) w i) →
      (∀ i ∈ backwardCandidates samples.length w, i ≠ 0 →
        loudB samples (threshRms db) w i) →
      trim_samples samples db w = some (Except.ok samples) := by
  intro s db w hw hf hb
  by_cases h0 : s.length = 0
  · rw [trim_samples_ok _ _ _ hw, if_pos h0, List.length_eq_zero.1 h0]
  · rw [trim_samples_ok _ _ _ hw, if_neg h0]
    have h0mem : (0 : ℕ) ∈ forwardCandidates s.length w :=
      (mem_forwardCandidates hw).2 ⟨dvd_zero w, Nat.pos_of_ne_zero h0⟩
    have hs : start_trim s (threshRms db) w = 0 :=
      start_trim_eq hw (dvd_zero w) (Nat.pos_of_ne_zero h0) (hf 0 h0mem)
        (fun i _ hi => absurd hi (Nat.not_lt_zero i))
    have hlenmem : s.length ∈ backwardCandidates s.length w :=
      mem_backwardCandidates.2 ⟨0, Nat.zero_le _, by rw [zero_mul, Nat.sub_zero]⟩
    have he : end_trim s (threshRms db) w = s.length := by
      have h := @end_trim_eq s (threshRms db) w 0 (Nat.zero_le _)
        (by rw [zero_mul, Nat.sub_zero]; exact hb _ hlenmem h0)
        (fun k hk => absurd hk (Nat.not_lt_zero k))
      rwa [zero_mul, Nat.sub_zero] at h
    unfold trimCore
    rw [hs, he, if_pos (Nat.pos_of_ne_zero h0), slice_full]

/-- Witness for C6 at a concrete input. -/
theorem trim_all_loud_identity_witness :
    trim_samples [(40000 : ℤ)] 0 1 = some (Except.ok [(40000 : ℤ)]) := by
  have habs : |((40000 : ℤ) : ℝ)| = 40000 := by
    push_cast
    rw [abs_of_nonneg (by norm_num : (0:ℝ) ≤ 40000)]
  refine trim_all_loud_identity [(40000 : ℤ)] 0 1 (by decide) ?_ ?_
  · intro i hi
    have hi0 : i = 0 := by
      rcases (mem_forwardCandidates (by decide)).1 hi with ⟨-, hlt⟩
      simpa using Nat.lt_one_iff.1 (by simpa using hlt)
    subst hi0
    unfold loudF
    rw [show slice [(40000 : ℤ)] 0
        (min (0 + 1) (List.length [(40000 : ℤ)])) = [(40000 : ℤ)] by decide]
    rw [rms_single, threshRms_zero, habs]
    norm_num
  · intro i hi hne
    have hi1 : i = 1 := by
      rcases mem_backwardCandidates.1 hi with ⟨k, hk, rfl⟩
      simp at hk
      interval_cases k <;> simp_all
    subst hi1
    unfold loudB
    rw [show slice [(40000 : ℤ)] (1 - 1) 1 = [(40000 : ℤ)] by decide]
    rw [rms_single, threshRms_zero, habs]
    norm_num

/-! ### Slice computations inside a silence-signal-silence sequence -/

theorem slice_zeros_front {N M u i : ℕ} {v : ℤ} (h : i + u ≤ N) :
    slice (List.replicate N (0 : ℤ) ++ List.replicate M v ++
      List.replicate N (0 : ℤ)) i (i + u) = List.replicate u (0 : ℤ) := by
  unfold slice
  have h1 : i + u - i = u := by omega
  rw [h1, List.append_assoc]
  rw [List.drop_append_of_le_length (by simp; omega)]
  rw [List.drop_replicate]
  rw [List.take_append_of_le_length (by simp; omega)]
  rw [List.take_replicate]
  congr 1
  omega

theorem slice_signal {N M u d : ℕ} {v : ℤ} (h : d + u ≤ M) :
    slice (List.replicate N (0 : ℤ) ++ List.replicate M v ++
      List.replicate N (0 : ℤ)) (N + d) (N + d + u) = List.replicate u v := by
  unfold slice
  have h1 : N + d + u - (N + d) = u := by omega
  rw [h1, List.append_assoc]
  rw [show N + d = (List.replicate N (0 : ℤ)).length + d by simp]
  rw [List.drop_append]
  rw [List.drop_append_of_le_length (by simp; omega)]
  rw [List.drop_replicate]
  rw [List.take_append_of_le_length (by simp; omega)]
  rw [List.take_replicate]
  congr 1
  omega

theorem slice_zeros_back {N M u t : ℕ} {v : ℤ} (h : u + t ≤ N) :
    slice (List.replicate N (0 : ℤ) ++ List.replicate M v ++
      List.replicate N (0 : ℤ)) (N + M + t) (N + M + t + u) =
      List.replicate u (0 : ℤ) := by
  unfold slice
  have h1 : N + M + t + u - (N + M + t) = u := by omega
  rw [h1]
  rw [show N + M + t =
    (List.replicate N (0 : ℤ) ++ List.replicate M v).length + t by simp]
  rw [List.drop_append]
  rw [List.drop_replicate, List.take_replicate]
  congr 1
  omega

/-- C5: leading silence of length `N`, followed by `M` samples of a loud
constant value `v`, followed by trailing silence of length `N`, with the
window size dividing `N` and `M` and a window of value `v` strictly above
the threshold, trims to exactly the `M` loud samples, unchanged and with
no boundary fragments of silence retained.  (A positive window size
follows from the loudness hypothesis: a size-zero window has RMS `0`,
below the always-positive threshold.) -/
theorem trim_silence_signal_silence :
    ∀ (N M : ℕ) (v : ℤ) (db : ℝ) (w : ℕ), w ∣ N → w ∣ M →
      threshRms db < rms (List.replicate w v) →
      trim_samples (List.replicate N (0 : ℤ) ++ List.replicate M v ++
        List.replicate N (0 : ℤ)) db w = some (Except.ok (List.replicate M v)) := by
  intro N M v db w hN hM hloud
  have hthr := threshRms_pos db
  have hw : 0 < w := by
    rcases Nat.eq_zero_or_pos w with h | h
    · subst h
      rw [show List.replicate 0 v = ([] : List ℤ) from rfl] at hloud
      have hz : rms ([] : List ℤ) = 0 := by simp [rms]
      rw [hz] at hloud
      linarith
    · exact h
  rcases Nat.eq_zero_or_pos M with hM0 | hMpos
  · subst hM0
    have hs0 : List.replicate N (0 : ℤ) ++ List.replicate 0 v ++
        List.replicate N (0 : ℤ) = List.replicate (N + N) (0 : ℤ) := by
      rw [show List.replicate 0 v = ([] : List ℤ) from rfl, List.append_nil,
        List.replicate_add]
    rw [hs0, show List.replicate 0 v = ([] : List ℤ) from rfl]
    exact trim_replicate_zero (N + N) db w hw
  · have hwM : w ≤ M := Nat.le_of_dvd hMpos hM
    have hlen : (List.replicate N (0 : ℤ) ++ List.replicate M v ++
        List.replicate N (0 : ℤ)).length = N + M + N := by
      simp only [List.length_append, List.length_replicate]
    have hstart : start_trim (List.replicate N (0 : ℤ) ++ List.replicate M v ++
        List.replicate N (0 : ℤ)) (threshRms db) w = N := by
      refine start_trim_eq hw hN (by rw [hlen]; omega) ?_ ?_
      · unfold loudF
        rw [hlen, min_eq_left (by omega)]
        have hsl := slice_signal (N := N) (M := M) (u := w) (d := 0) (v := v)
          (by omega)
        simp only [Nat.add_zero] at hsl
        rw [hsl]
        exact hloud
      · intro i hdi hilt hli
        obtain ⟨a, rfl⟩ := hdi
        obtain ⟨b, hb⟩ := hN
        have hab : a < b := Nat.lt_of_mul_lt_mul_left (hb ▸ hilt)
        have h1 : w * a + w = w * (a + 1) := by ring
        have h2 : w * (a + 1) ≤ w * b :=
          Nat.mul_le_mul_left w (Nat.succ_le_of_lt hab)
        have hiw : w * a + w ≤ N := by omega
        unfold loudF at hli
        rw [hlen, min_eq_left (by omega)] at hli
        rw [slice_zeros_front (by omega)] at hli
        rw [rms_replicate_zero] at hli
        linarith
    have hcand : (List.replicate N (0 : ℤ) ++ List.replicate M v ++
        List.replicate N (0 : ℤ)).length - N / w * w = N + M := by
      rw [hlen, Nat.div_mul_cancel hN]
      omega
    have hend : end_trim (List.replicate N (0 : ℤ) ++ List.replicate M v ++
        List.replicate N (0 : ℤ)) (threshRms db) w = N + M := by
      have hlNM : loudB (List.replicate N (0 : ℤ) ++ List.replicate M v ++
          List.replicate N (0 : ℤ)) (threshRms db) w (N + M) := by
        unfold loudB
        have hidx : N + M - w = N + (M - w) := by omega
        have hidx2 : N + M = N + (M - w) + w := by omega
        rw [hidx, hidx2, slice_signal (by omega : (M - w) + w ≤ M)]
        exact hloud
      have hk : N / w ≤ (List.replicate N (0 : ℤ) ++ List.replicate M v ++
          List.replicate N (0 : ℤ)).length / w := by
        rw [hlen]
        exact Nat.div_le_div_right (by omega)
      have hl : loudB (List.replicate N (0 : ℤ) ++ List.replicate M v ++
          List.replicate N (0 : ℤ)) (threshRms db) w
          ((List.replicate N (0 : ℤ) ++ List.replicate M v ++
            List.replicate N (0 : ℤ)).length - N / w * w) := by
        rw [hcand]
        exact hlNM
      have hmin : ∀ k, k < N / w →
          ¬ loudB (List.replicate N (0 : ℤ) ++ List.replicate M v ++
            List.replicate N (0 : ℤ)) (threshRms db) w
            ((List.replicate N (0 : ℤ) ++ List.replicate M v ++
              List.replicate N (0 : ℤ)).length - k * w) := by
        intro k hk hlk
        have h1 : (k + 1) * w ≤ N / w * w :=
          Nat.mul_le_mul_right w (Nat.succ_le_of_lt hk)
        have h2 : N / w * w = N := Nat.div_mul_cancel hN
        have h3 : k * w + w ≤ N := by
          have : (k + 1) * w = k * w + w := by ring
          omega
        unfold loudB at hlk
        rw [hlen] at hlk
        have hi1 : N + M + N - k * w - w = N + M + (N - k * w - w) := by omega
        have hi2 : N + M + N - k * w = N + M + (N - k * w - w) + w := by omega
        rw [hi1, hi2] at hlk
        rw [slice_zeros_back (by omega : w + (N - k * w - w) ≤ N)] at hlk
        rw [rms_replicate_zero] at hlk
        linarith
      have h := end_trim_eq hk hl hmin
      rwa [hcand] at h
    rw [trim_samples_ok _ _ _ hw, if_neg (by rw [hlen]; omega)]
    unfold trimCore
    rw [hstart, hend, if_pos (by omega)]
    have hsl := slice_signal (N := N) (M := M) (u := M) (d := 0) (v := v)
      (by omega)
    simp only [Nat.add_zero] at hsl
    rw [hsl]

/-- Witness for C5 at a concrete input. -/
theorem trim_silence_signal_silence_witness :
    trim_samples (List.replicate 2 (0 : ℤ) ++ List.replicate 2 (40000 : ℤ) ++
      List.replicate 2 (0 : ℤ)) 0 2 =
      some (Except.ok (List.replicate 2 (40000 : ℤ))) :=
  trim_silence_signal_silence 2 2 40000 0 2 (by decide) (by decide)
    (by
      rw [rms_replicate 2 40000 (by decide), threshRms_zero]
      have h : |((40000 : ℤ) : ℝ)| = 40000 := by
        push_cast
        rw [abs_of_nonneg (by norm_num : (0:ℝ) ≤ 40000)]
      rw [h]
      norm_num)

/-- C7 (amended): `trim_samples` is idempotent whenever the first result is
empty or at least one window long.  (The unrestricted claim is refuted by
`trim_samples_not_idempotent`: when the first result is shorter than the
window, the re-trim examines a smaller window that can fail the
threshold.) -/
theorem trim_samples_idempotent_amended :
    ∀ (samples : List ℤ) (db : ℝ) (w : ℕ) (r : List ℤ), 0 < w →
      trim_samples samples db w = some (Except.ok r) →
      (r = [] ∨ w ≤ r.length) →
      trim_samples r db w = some (Except.ok r) := by
  intro s db w r hw htrim hcase
  rcases hcase with hre | hwr
  · subst hre
    rw [trim_samples_ok _ _ _ hw, if_pos (by simp)]
  · have hrne : r.length ≠ 0 := by omega
    rw [trim_samples_ok _ _ _ hw] at htrim
    by_cases h0 : s.length = 0
    · rw [if_pos h0] at htrim
      have hre : ([] : List ℤ) = r := by simpa using htrim
      rw [← hre] at hrne
      simp at hrne
    · rw [if_neg h0] at htrim
      have hr : trimCore s (threshRms db) w = r := by simpa using htrim
      have hble := end_trim_le s (threshRms db) w
      have hsspec := start_trim_spec s (threshRms db) w hw
      have hespec := end_trim_spec s (threshRms db) w
      set a := start_trim s (threshRms db) w with ha
      set b := end_trim s (threshRms db) w with hbdef
      by_cases hab : a < b
      · unfold trimCore at hr
        rw [← ha, ← hbdef, if_pos hab] at hr
        have hrlen : r.length = b - a := by
          rw [← hr, slice_length, min_eq_left (by omega)]
        have hwba : w ≤ b - a := by omega
        rcases hsspec with hsl | ⟨hda, halen, hla⟩
        · exfalso; omega
        rcases hespec with hez | ⟨k, hk, hbeq, hlb⟩
        · exfalso; omega
        unfold loudF at hla
        rw [min_eq_left (by omega)] at hla
        unfold loudB at hlb
        rw [trim_samples_ok _ _ _ hw, if_neg hrne]
        have hfw : slice r 0 (min (0 + w) r.length) = slice s a (a + w) := by
          rw [zero_add, hrlen, min_eq_left hwba, ← hr]
          unfold slice
          simp only [List.drop_zero, Nat.sub_zero]
          rw [List.take_take, min_eq_left hwba]
          congr 1
          omega
        have hbw : slice r (r.length - w) r.length = slice s (b - w) b := by
          rw [hrlen, ← hr]
          unfold slice
          rw [List.drop_take, List.drop_drop, List.take_take]
          have e2 : a + (b - a - w) = b - w := by omega
          rw [e2]
          congr 1
          omega
        have hsr : start_trim r (threshRms db) w = 0 := by
          refine start_trim_eq hw (dvd_zero w) (by omega) ?_
            (fun i _ hi => absurd hi (Nat.not_lt_zero i))
          unfold loudF
          rw [hfw]
          exact hla
        have her : end_trim r (threshRms db) w = r.length := by
          have hlr : loudB r (threshRms db) w (r.length - 0 * w) := by
            rw [zero_mul, Nat.sub_zero]
            unfold loudB
            rw [hbw]
            exact hlb
          have h := end_trim_eq (Nat.zero_le _) hlr
            (fun k hk => absurd hk (Nat.not_lt_zero k))
          rwa [zero_mul, Nat.sub_zero] at h
        unfold trimCore
        rw [hsr, her, if_pos (by omega), slice_full]
      · exfalso
        unfold trimCore at hr
        rw [← ha, ← hbdef, if_neg hab] at hr
        rw [← hr] at hrne
        simp at hrne

/-- Witness for the amended C7 at a concrete input (empty first result). -/
theorem trim_samples_idempotent_amended_witness :
    trim_samples ([] : List ℤ) 0 1 = some (Except.ok []) :=
  trim_samples_idempotent_amended [] 0 1 [] (by decide)
    (trim_samples_ok [] 0 1 (by decide)) (Or.inl rfl)

/-- C7 counterexample: `trim_samples` is not idempotent in general,
already on genuine i16 inputs (all samples below lie in the i16 range,
as the last conjunct records).  With window size 3 and threshold -50 dBFS
(linear threshold 32768 * 10^(-5/2), about 103.6, so a 3-sample window is
loud exactly when its sum of squares exceeds 32212.25472), the first trim
of the sequence below returns the single sample `[100]` (its boundary
windows `[100, 160, 0]` with sum of squares 35600 and `[173, 0, 100]`
with 39929 are loud, while `[0, 173, 0]` with 29929 and `[160, 0, 0]`
with 25600 are not), but re-trimming `[100]` examines the single
whole-sequence window `[100]`, whose squared RMS 10000 is below
10737.41824, giving `[]`.  Every margin is several percent, far beyond
f64 rounding, so the divergence is realisable in the Rust code. -/
theorem trim_samples_not_idempotent :
    trim_samples [(0:ℤ), 0, 0, 0, 173, 0, 100, 160, 0, 0] (-50) 3 =
      some (Except.ok [(100 : ℤ)]) ∧
    trim_samples [(100 : ℤ)] (-50) 3 = some (Except.ok []) ∧
    [(100 : ℤ)] ≠ ([] : List ℤ) ∧
    (∀ x ∈ [(0:ℤ), 0, 0, 0, 173, 0, 100, 160, 0, 0],
      -32768 ≤ x ∧ x ≤ 32767) := by
  have hsq : threshRms (-50 : ℝ) ^ 2 = 1073741824 / 100000 := by
    rw [threshRms_sq]
    rw [show (-50 : ℝ) / 10 = ((-5 : ℤ) : ℝ) by norm_num, Real.rpow_intCast]
    norm_num
  have h003 : ¬ (threshRms (-50 : ℝ) < rms [(0:ℤ), 0, 0]) := by
    rw [rms_gt_iff _ _ (by decide) (le_of_lt (threshRms_pos _)), hsq]
    norm_num [sumSq]
  have h044 : ¬ (threshRms (-50 : ℝ) < rms [(0:ℤ), 173, 0]) := by
    rw [rms_gt_iff _ _ (by decide) (le_of_lt (threshRms_pos _)), hsq]
    norm_num [sumSq]
  have h844 : threshRms (-50 : ℝ) < rms [(100:ℤ), 160, 0] := by
    rw [rms_gt_iff _ _ (by decide) (le_of_lt (threshRms_pos _)), hsq]
    norm_num [sumSq]
  have h440 : ¬ (threshRms (-50 : ℝ) < rms [(160:ℤ), 0, 0]) := by
    rw [rms_gt_iff _ _ (by decide) (le_of_lt (threshRms_pos _)), hsq]
    norm_num [sumSq]
  have h448 : threshRms (-50 : ℝ) < rms [(173:ℤ), 0, 100] := by
    rw [rms_gt_iff _ _ (by decide) (le_of_lt (threshRms_pos _)), hsq]
    norm_num [sumSq]
  have h8 : ¬ (threshRms (-50 : ℝ) < rms [(100:ℤ)]) := by
    rw [rms_gt_iff _ _ (by decide) (le_of_lt (threshRms_pos _)), hsq]
    norm_num [sumSq]
  refine ⟨?_, ?_, by decide, by decide⟩
  · have hs : start_trim
        [(0:ℤ), 0, 0, 0, 173, 0, 100, 160, 0, 0]
        (threshRms (-50 : ℝ)) 3 = 6 := by
      refine start_trim_eq (by decide) (by decide) (by decide) ?_ ?_
      · unfold loudF
        rw [show slice [(0:ℤ), 0, 0, 0, 173, 0, 100, 160, 0, 0]
          6 (min (6 + 3)
            (List.length [(0:ℤ), 0, 0, 0, 173, 0, 100, 160, 0, 0]))
          = [(100:ℤ), 160, 0] from by decide]
        exact h844
      · intro i hdi hilt hli
        have : i = 0 ∨ i = 3 := by omega
        rcases this with rfl | rfl
        · unfold loudF at hli
          rw [show slice [(0:ℤ), 0, 0, 0, 173, 0, 100, 160, 0, 0]
            0 (min (0 + 3)
              (List.length [(0:ℤ), 0, 0, 0, 173, 0, 100, 160, 0, 0]))
            = [(0:ℤ), 0, 0] from by decide] at hli
          exact h003 hli
        · unfold loudF at hli
          rw [show slice [(0:ℤ), 0, 0, 0, 173, 0, 100, 160, 0, 0]
            3 (min (3 + 3)
              (List.length [(0:ℤ), 0, 0, 0, 173, 0, 100, 160, 0, 0]))
            = [(0:ℤ), 173, 0] from by decide] at hli
          exact h044 hli
    have he : end_trim
        [(0:ℤ), 0, 0, 0, 173, 0, 100, 160, 0, 0]
        (threshRms (-50 : ℝ)) 3 = 7 := by
      have hlform : List.length
          [(0:ℤ), 0, 0, 0, 173, 0, 100, 160, 0, 0] - 1 * 3 = 7 := by
        decide
      have hl : loudB [(0:ℤ), 0, 0, 0, 173, 0, 100, 160, 0, 0]
          (threshRms (-50 : ℝ)) 3
          (List.length [(0:ℤ), 0, 0, 0, 173, 0, 100, 160, 0, 0]
            - 1 * 3) := by
        rw [hlform]
        unfold loudB
        rw [show slice [(0:ℤ), 0, 0, 0, 173, 0, 100, 160, 0, 0]
          (7 - 3) 7 = [(173:ℤ), 0, 100] from by decide]
        exact h448
      have hmin : ∀ k, k < 1 →
          ¬ loudB [(0:ℤ), 0, 0, 0, 173, 0, 100, 160, 0, 0]
            (threshRms (-50 : ℝ)) 3
            (List.length [(0:ℤ), 0, 0, 0, 173, 0, 100, 160, 0, 0]
              - k * 3) := by
        intro k hk hlk
        have hk0 : k = 0 := by omega
        subst hk0
        rw [show List.length
          [(0:ℤ), 0, 0, 0, 173, 0, 100, 160, 0, 0] - 0 * 3 = 10
          from by decide] at hlk
        unfold loudB at hlk
        rw [show slice [(0:ℤ), 0, 0, 0, 173, 0, 100, 160, 0, 0]
          (10 - 3) 10 = [(160:ℤ), 0, 0] from by decide] at hlk
        exact h440 hlk
      have h := end_trim_eq (by decide) hl hmin
      rwa [hlform] at h
    rw [trim_samples_ok _ _ _ (by decide), if_neg (by decide)]
    unfold trimCore
    rw [hs, he, if_pos (by decide)]
    rw [show slice [(0:ℤ), 0, 0, 0, 173, 0, 100, 160, 0, 0] 6 7
      = [(100:ℤ)] from by decide]
  · have hs2 : start_trim [(100:ℤ)] (threshRms (-50 : ℝ)) 3 = 1 := by
      have h := @start_trim_eq_len [(100:ℤ)] (threshRms (-50 : ℝ)) 3
        (by decide) ?_
      · rw [h]; decide
      · intro i hdi hilt hli
        have hi0 : i = 0 := by
          have : List.length [(100:ℤ)] = 1 := by decide
          omega
        subst hi0
        unfold loudF at hli
        rw [show slice [(100:ℤ)] 0 (min (0 + 3) (List.length [(100:ℤ)]))
          = [(100:ℤ)] from by decide] at hli
        exact h8 hli
    have he2 : end_trim [(100:ℤ)] (threshRms (-50 : ℝ)) 3 = 0 := by
      refine end_trim_eq_zero ?_
      intro k hk hlk
      have hk0 : k = 0 := by
        have : List.length [(100:ℤ)] / 3 = 0 := by decide
        omega
      subst hk0
      rw [show List.length [(100:ℤ)] - 0 * 3 = 1 from by decide] at hlk
      unfold loudB at hlk
      rw [show slice [(100:ℤ)] (1 - 3) 1 = [(100:ℤ)] from by decide] at hlk
      exact h8 hlk
    rw [trim_samples_ok _ _ _ (by decide), if_neg (by decide)]
    unfold trimCore
    rw [hs2, he2, if_neg (by omega)]

/-- C4: `trim_wav` processes a file only when its header descriptor
exactly equals {channels = 1, sample_rate = 16000, bits_per_sample = 16,
integer PCM}; for any other combination it returns the format error
before any samples are decoded and before any output file is created
(the trace records only the successful open); when the descriptor
matches, the sample decode step is reached. -/
theorem trim_wav_validates_format :
    (∀ (db : ℝ) (file : WavFile) (cr : Except String Unit)
      (wr : ℤ → Except String Unit) (fr : Except String Unit),
      (file.spec.channels ≠ 1 ∨ file.spec.sample_rate ≠ 16000 ∨
        file.spec.bits_per_sample ≠ 16 ∨
        file.spec.sample_format ≠ SampleFormat.int) →
      trim_wav db (Except.ok file) cr wr fr =
        (Except.error "Unsupported WAV format: expected mono 16-bit PCM at 16kHz",
          [Ev.openInput]) ∧
      Ev.readSamples ∉ (trim_wav db (Except.ok file) cr wr fr).2 ∧
      Ev.createOutput ∉ (trim_wav db (Except.ok file) cr wr fr).2) ∧
    (∀ (db : ℝ) (file : WavFile) (cr : Except String Unit)
      (wr : ℤ → Except String Unit) (fr : Except String Unit),
      (file.spec.channels = 1 ∧ file.spec.sample_rate = 16000 ∧
        file.spec.bits_per_sample = 16 ∧
        file.spec.sample_format = SampleFormat.int) →
      Ev.readSamples ∈ (trim_wav db (Except.ok file) cr wr fr).2) := by
  constructor
  · intro db file cr wr fr h
    have heq : trim_wav db (Except.ok file) cr wr fr =
        (Except.error "Unsupported WAV format: expected mono 16-bit PCM at 16kHz",
          [Ev.openInput]) := by
      unfold trim_wav
      simp only []
      rw [if_pos h]
    refine ⟨heq, ?_, ?_⟩ <;> rw [heq] <;> simp
  · intro db file cr wr fr h
    rcases h with ⟨h1, h2, h3, h4⟩
    unfold trim_wav
    simp only []
    rw [if_neg (by push_neg; exact ⟨h1, h2, h3, h4⟩)]
    cases hsm : file.samples with
    | error e => simp
    | ok samples =>
      cases cr with
      | error e => simp
      | ok u =>
        rcases hww : writeAll wr (unwrapTrim (trim_samples samples db 800))
          with ⟨wres, wtrace⟩
        cases wres with
        | error e => simp [hww]
        | ok u2 =>
          cases fr with
          | error e => simp [hww]
          | ok u3 => simp [hww]

/-- Witness for C4 at a concrete input (stereo file is rejected). -/
theorem trim_wav_validates_format_witness :
    trim_wav (-50) (Except.ok ⟨⟨2, 16000, 16, SampleFormat.int⟩, Except.ok []⟩)
      (Except.ok ()) (fun _ => Except.ok ()) (Except.ok ()) =
      (Except.error "Unsupported WAV format: expected mono 16-bit PCM at 16kHz",
        [Ev.openInput]) :=
  (trim_wav_validates_format.1 (-50)
    ⟨⟨2, 16000, 16, SampleFormat.int⟩, Except.ok []⟩
    (Except.ok ()) (fun _ => Except.ok ()) (Except.ok ())
    (Or.inl (by decide))).1

/-- C2 (amended): a `trim_wav` failure (container open/parse, format
mismatch, sample read, output create/write/finalize) is caught at the
per-file boundary and the batch continues with the next file; however —
contrary to the original claim — a relative-path computation failure or a
failure to create the output subdirectory propagates out of the walk loop
and terminates the run, as do an argument-parse failure, a missing input
directory and a failure to create the output root. -/
theorem main_per_file_failure_isolation :
    (∀ (thr : ℝ) (e : Entry) (rest : List Entry) (u : Unit) (msg : String),
      selectedEntry e → e.relPath = Except.ok u →
      (e.hasParent = true → e.createParentRes = Except.ok ()) →
      (trim_wav thr e.openRes e.createRes e.writeRes e.finalizeRes).1 =
        Except.error msg →
      mainLoop thr (e :: rest) = mainLoop thr rest) ∧
    (∀ (thr : ℝ) (e : Entry) (rest : List Entry) (err : String),
      selectedEntry e → e.relPath = Except.error err →
      mainLoop thr (e :: rest) =
        Except.error ("Failed to compute relative path: " ++ err)) ∧
    (∀ (thr : ℝ) (e : Entry) (rest : List Entry) (u : Unit) (err : String),
      selectedEntry e → e.relPath = Except.ok u → e.hasParent = true →
      e.createParentRes = Except.error err →
      mainLoop thr (e :: rest) =
        Except.error ("Failed to create output subdirectory: " ++ err)) ∧
    (∀ (msg : String) (b : Bool) (c : Except String Unit)
      (entries : List Entry),
      mainRun (Except.error msg) b c entries = Except.error msg) ∧
    (∀ (a : Args) (c : Except String Unit) (entries : List Entry),
      mainRun (Except.ok a) false c entries =
        Except.error "Input directory does not exist") ∧
    (∀ (a : Args) (entries : List Entry) (msg : String),
      mainRun (Except.ok a) true (Except.error msg) entries =
        Except.error ("Failed to create output directory: " ++ msg)) := by
  refine ⟨?_, ?_, ?_, ?_, ?_, ?_⟩
  · intro thr e rest u msg hsel hrel hpar htrim
    conv_lhs => rw [mainLoop]
    rw [if_pos hsel, hrel]
    simp only []
    cases hp : e.hasParent with
    | true =>
      rw [if_pos rfl, hpar hp]
      simp only []
      rw [htrim]
    | false =>
      rw [if_neg (by simp)]
      simp only []
      rw [htrim]
  · intro thr e rest err hsel hrel
    conv_lhs => rw [mainLoop]
    rw [if_pos hsel, hrel]
  · intro thr e rest u err hsel hrel hp hcp
    conv_lhs => rw [mainLoop]
    rw [if_pos hsel, hrel]
    simp only []
    rw [if_pos hp, hcp]
  · intro msg b c entries
    rfl
  · intro a c entries
    unfold mainRun
    simp only []
    rw [if_neg (by simp)]
  · intro a entries msg
    unfold mainRun
    simp only []
    rw [if_pos trivial]

/-- Witness for the amended C2 at a concrete input: an entry whose
`trim_wav` fails (input cannot be opened) does not abort the loop. -/
theorem main_per_file_failure_isolation_witness :
    mainLoop (-50)
      [⟨true, some "wav", Except.ok (), false, Except.ok (),
        Except.error "io error", Except.ok (), fun _ => Except.ok (),
        Except.ok ()⟩] = mainLoop (-50) [] :=
  main_per_file_failure_isolation.1 (-50)
    ⟨true, some "wav", Except.ok (), false, Except.ok (),
      Except.error "io error", Except.ok (), fun _ => Except.ok (),
      Except.ok ()⟩
    [] () "Failed to open input WAV file: io error"
    (by exact ⟨rfl, rfl⟩) rfl (by intro h; exact absurd h (by decide)) rfl

/-- C2 counterexample: a relative-path computation failure for a selected
entry terminates the whole run with an error (so it is not caught at the
per-file boundary), even though the input directory exists, the output
root was created, and the arguments parsed. -/
theorem main_aborts_on_relative_path_failure :
    mainRun (Except.ok ⟨"in", "out", -50⟩) true (Except.ok ())
      [⟨true, some "wav", Except.error "boom", false, Except.ok (),
        Except.ok ⟨⟨1, 16000, 16, SampleFormat.int⟩, Except.ok []⟩,
        Except.ok (), fun _ => Except.ok (), Except.ok ()⟩] =
      Except.error ("Failed to compute relative path: " ++ "boom") := by
  unfold mainRun
  simp only []
  rw [if_pos trivial]
  conv_lhs => rw [mainLoop]
  rw [if_pos (by exact ⟨rfl, rfl⟩)]

end WavTrim
